import Mathlib

/-!
Verification of the batch-transcription orchestrator and transcript edit
ledger of the Azure Speech-to-Text diarization app.  The definitions below
are a shallow embedding of the Python source:

* `services/batch_service.py` — SAS-token expiry tracking
  (`_parse_sas_expiry`, `_is_sas_expired`), ISO-8601 duration parsing
  (`_parse_duration_to_ticks`), the job cache partition inside
  `get_transcription_jobs`, and the multi-file result merge inside
  `get_transcription_results`;
* `app.py` — `update_segment_text` and `update_speaker_names`;
* `route_helpers.py` — `validate_segment_update` and
  `validate_batch_transcription_params`;
* `models.py` — the `SpeakerSegment` record.

Network and clock effects are made explicit parameters: the current UTC
time is a `DT` argument, and a result file's download outcome and parsed
payload are fields of `ResultFile`.
-/

namespace STT

/-- A UTC timestamp as compared by `datetime`: a (year, month, day, hour,
minute, second) tuple, ordered lexicographically. -/
structure DT where
  year : Nat
  month : Nat
  day : Nat
  hour : Nat
  minute : Nat
  second : Nat
deriving DecidableEq, Repr

/-- `datetime` comparison `a <= b`, lexicographic on the six fields. -/
def dtLe (a b : DT) : Bool :=
  if a.year ≠ b.year then decide (a.year < b.year)
  else if a.month ≠ b.month then decide (a.month < b.month)
  else if a.day ≠ b.day then decide (a.day < b.day)
  else if a.hour ≠ b.hour then decide (a.hour < b.hour)
  else if a.minute ≠ b.minute then decide (a.minute < b.minute)
  else decide (a.second ≤ b.second)

/-- Gregorian leap-year rule used by `datetime` for day-of-month validation. -/
def isLeapYear (y : Nat) : Bool :=
  decide ((y % 4 = 0 ∧ y % 100 ≠ 0) ∨ y % 400 = 0)

/-- Days in a month, as validated by the `datetime` constructor. -/
def daysInMonth (y m : Nat) : Nat :=
  if m = 2 then (if isLeapYear y then 29 else 28)
  else if m = 4 ∨ m = 6 ∨ m = 9 ∨ m = 11 then 30
  else 31

/-- Numeric value of a hexadecimal digit character. -/
def hexVal (c : Char) : Option Nat :=
  if c.isDigit then some (c.toNat - '0'.toNat)
  else if 'a' ≤ c ∧ c ≤ 'f' then some (c.toNat - 'a'.toNat + 10)
  else if 'A' ≤ c ∧ c ≤ 'F' then some (c.toNat - 'A'.toNat + 10)
  else none

/-- `urllib.parse.unquote_plus` on the character list of a query component:
plus signs become spaces and `%hh` hex escapes are decoded (single-byte
decoding; an invalid escape is left as a literal percent sign). -/
def unquotePlusChars : List Char → List Char
  | [] => []
  | '+' :: rest => ' ' :: unquotePlusChars rest
  | '%' :: a :: b :: rest =>
    match hexVal a, hexVal b with
    | some ha, some hb => Char.ofNat (16 * ha + hb) :: unquotePlusChars rest
    | _, _ => '%' :: unquotePlusChars (a :: b :: rest)
  | c :: rest => c :: unquotePlusChars rest

/-- The query component extracted by `urllib.parse.urlparse`: the fragment
(everything from the first hash sign) is cut off first, then the query is
whatever follows the first question mark. -/
def urlQueryChars (cs : List Char) : List Char :=
  let beforeFrag := cs.takeWhile (fun c => c ≠ '#')
  match beforeFrag.dropWhile (fun c => c ≠ '?') with
  | [] => []
  | _ :: rest => rest

/-- `urllib.parse.parse_qsl` with default arguments: split the query on
ampersands, skip empty chunks, split each chunk on the first equals sign,
skip chunks without one and chunks whose raw value is empty
(`keep_blank_values=False`), and percent-decode names and values. -/
def parseQsl (query : List Char) : List (String × String) :=
  (query.splitOn '&').filterMap (fun chunk =>
    if chunk = [] then none
    else
      let name := chunk.takeWhile (fun c => c ≠ '=')
      match chunk.dropWhile (fun c => c ≠ '=') with
      | [] => none
      | _ :: value =>
        if value = [] then none
        else some (String.mk (unquotePlusChars name),
                   String.mk (unquotePlusChars value)))

/-- `BatchTranscriptionService._parse_sas_expiry`: extract the SAS token
expiry timestamp (the first `se` query parameter) from an Azure Storage
URL; `None` when the URL is empty or carries no `se` parameter. -/
def parseSasExpiry (url : String) : Option String :=
  if url = "" then none
  else ((parseQsl (urlQueryChars url.data)).find? (fun p => p.1 = "se")).map (·.2)

/-- Numeric value of a decimal digit character. -/
def digitVal (c : Char) : Nat := c.toNat - '0'.toNat

/-- Exactly four decimal digits, as `strptime`'s `%Y` directive. -/
def parse4Digits : List Char → Option (Nat × List Char)
  | a :: b :: c :: d :: rest =>
    if a.isDigit ∧ b.isDigit ∧ c.isDigit ∧ d.isDigit then
      some (1000 * digitVal a + 100 * digitVal b + 10 * digitVal c + digitVal d, rest)
    else none
  | _ => none

/-- One or two decimal digits whose value lies in `[lo, hi]`, as
`strptime`'s `%m`/`%d`/`%H`/`%M`/`%S` directives (two digits are consumed
when two are available, which agrees with the regex alternation because the
following literal is never a digit). -/
def parseNum2 (lo hi : Nat) : List Char → Option (Nat × List Char)
  | a :: b :: rest =>
    if a.isDigit then
      if b.isDigit then
        let v := 10 * digitVal a + digitVal b
        if lo ≤ v ∧ v ≤ hi then some (v, rest) else none
      else
        let v := digitVal a
        if lo ≤ v ∧ v ≤ hi then some (v, b :: rest) else none
    else none
  | [a] =>
    if a.isDigit ∧ lo ≤ digitVal a ∧ digitVal a ≤ hi then some (digitVal a, [])
    else none
  | [] => none

/-- Consume one expected literal character. -/
def expectChar (c : Char) : List Char → Option (List Char)
  | x :: rest => if x = c then some rest else none
  | [] => none

/-- `datetime.strptime(s, "%Y-%m-%dT%H:%M:%SZ")`: a strict parse of the
full input string, including the `datetime` constructor's range checks
(year at least 1, day valid for the month). -/
def pyStrptimeTsZ (s : String) : Option DT := do
  let (y, r1) ← parse4Digits s.data
  let r2 ← expectChar '-' r1
  let (mo, r3) ← parseNum2 1 12 r2
  let r4 ← expectChar '-' r3
  let (d, r5) ← parseNum2 1 31 r4
  let r6 ← expectChar 'T' r5
  let (h, r7) ← parseNum2 0 23 r6
  let r8 ← expectChar ':' r7
  let (mi, r9) ← parseNum2 0 59 r8
  let r10 ← expectChar ':' r9
  let (sec, r11) ← parseNum2 0 59 r10
  let r12 ← expectChar 'Z' r11
  if r12 = [] ∧ 1 ≤ y ∧ d ≤ daysInMonth y mo then
    some ⟨y, mo, d, h, mi, sec⟩
  else none

/-- `BatchTranscriptionService._is_sas_expired`: true when the URL carries
an `se` expiry that parses and is not after `now`; false when the expiry is
missing or unparsable (both total functions — the Python `try/except`
blocks never let an exception escape). -/
def isSasExpired (now : DT) (url : String) : Bool :=
  match parseSasExpiry url with
  | none => false
  | some es =>
    if es = "" then false
    else
      match pyStrptimeTsZ es with
      | none => false
      | some expiry => dtLe expiry now

/-- The fields of `models.SpeakerSegment` (ticks are Python ints, hence
`Int`; `original_speaker`/`original_text` default to `None`). -/
structure Seg where
  speaker : String
  text : String
  offsetInTicks : Int
  durationInTicks : Int
  lineNumber : Int
  originalSpeaker : Option String := none
  originalText : Option String := none
deriving DecidableEq, Repr

/-- A segment's end on the tick timeline: `offset + duration`. -/
def segEnd (s : Seg) : Int := s.offsetInTicks + s.durationInTicks

/-- `segment.offset_in_ticks += time_offset`, applied to each segment of a
non-first result file during the merge. -/
def shiftSeg (off : Int) (s : Seg) : Seg :=
  { s with offsetInTicks := s.offsetInTicks + off }

/-- One selected result file inside `get_transcription_results`: its
content URL (whose SAS token is checked before downloading), whether the
download request came back `ok`, and the segments
`_parse_batch_transcription_segments` yields from the downloaded JSON. -/
structure ResultFile where
  url : String
  downloadOk : Bool
  segments : List Seg
deriving DecidableEq, Repr

/-- One iteration of the merge loop of `get_transcription_results`
(lines 830-879 of `batch_service.py`): state is `(all_segments, file_idx)`.
A file with an expired SAS token or a failed download is skipped
(`continue`); otherwise, when `file_idx > 0` and segments were already
merged, every new segment is shifted by the end of the last merged
segment before being appended. -/
def mergeStep (now : DT) (st : List Seg × Nat) (f : ResultFile) : List Seg × Nat :=
  if isSasExpired now f.url then (st.1, st.2 + 1)
  else if !f.downloadOk then (st.1, st.2 + 1)
  else
    let merged :=
      if 0 < st.2 then
        match st.1.getLast? with
        | some last => st.1 ++ f.segments.map (shiftSeg (segEnd last))
        | none => st.1 ++ f.segments
      else st.1 ++ f.segments
    (merged, st.2 + 1)

/-- The merged segment list produced by the loop of
`get_transcription_results` over the selected result files. -/
def mergeFiles (now : DT) (files : List ResultFile) : List Seg :=
  (files.foldl (mergeStep now) ([], 0)).1

/-- The outcome fields of `BatchTranscriptionResult` relevant to the merge:
success flag, message, and merged segments. -/
structure BatchResultM where
  success : Bool
  message : String
  segments : List Seg
deriving DecidableEq, Repr

/-- The tail of `get_transcription_results` (lines 881-939): zero merged
segments yield an explicit failure result with a descriptive message,
otherwise a success result reporting the segment and file counts. -/
def getTranscriptionResultsCore (now : DT) (files : List ResultFile) : BatchResultM :=
  let allSegments := mergeFiles now files
  if allSegments = [] then
    ⟨false, "No transcription data found in result files", []⟩
  else
    let filesMsg :=
      if files.length > 1 then toString files.length ++ " file(s)" else "1 file"
    ⟨true, "Retrieved " ++ toString allSegments.length ++ " segments from " ++ filesMsg,
      allSegments⟩

/-- Decimal value of a digit string (`int` of a run of digits). -/
def digitsToNat (ds : List Char) : Nat :=
  ds.foldl (fun a c => 10 * a + digitVal c) 0

/-- One optional group `(?:(X)L)?` of the duration regex
`PT(?:(\d+)H)?(?:(\d+)M)?(?:([\d.]+)S)?`: take the maximal non-empty run of
characters in class `cls`; the group matches only when the run is followed
by the literal `letter` (backtracking inside the run cannot help because
the letter is outside the class), otherwise nothing is consumed. -/
def tryNumGroup (letter : Char) (cls : Char → Bool) (cs : List Char) :
    Option (List Char) × List Char :=
  let run := cs.takeWhile cls
  let rest := cs.dropWhile cls
  if run = [] then (none, cs)
  else
    match rest with
    | c :: rest2 => if c = letter then (some run, rest2) else (none, cs)
    | [] => (none, cs)

/-- Floor of the base-2 logarithm by repeated halving, with structural
fuel (`fuel ≥ n` suffices, so `natLog2 n` is exact). -/
def natLog2Aux : Nat → Nat → Nat
  | 0, _ => 0
  | fuel + 1, n => if 2 ≤ n then natLog2Aux fuel (n / 2) + 1 else 0

/-- `⌊log2 n⌋` for `n ≥ 1` (0 for `n = 0`). -/
def natLog2 (n : Nat) : Nat := natLog2Aux n n

/-- Decide `2^e ≤ n / d` over naturals (`d > 0`). -/
def le2pow (e : Int) (n d : Nat) : Bool :=
  if 0 ≤ e then d * 2 ^ e.toNat ≤ n else d ≤ n * 2 ^ (-e).toNat

/-- Is the dyadic value `m * 2^e2` at or above the binary64 overflow
threshold `2^1024`? -/
def dyadicOverflow (m : Nat) (e2 : Int) : Bool :=
  if 0 ≤ e2 then 2 ^ 1024 ≤ m * 2 ^ e2.toNat
  else 2 ^ 1024 * 2 ^ (-e2).toNat ≤ m

/-- Round the non-negative rational `n / d` (with `d > 0`) to the nearest
IEEE-754 binary64 value, ties to even, with gradual underflow to
subnormals and overflow to infinity (returned as `none`).  The finite
result is the dyadic pair `(m, e2)` of value `m * 2^e2`: the exponent is
clamped at the subnormal range, the value is scaled into the significand
range and rounded to an integer significand.  This is the correctly
rounded conversion performed by CPython's `float(<decimal string>)` and
`PyLong_AsDouble`, and — applied to an exact sum or product of doubles —
by each IEEE `+` and `*`. -/
def ratRoundToDouble (n d : Nat) : Option (Nat × Int) :=
  if n = 0 then some (0, 0)
  else
    let e0 : Int := (natLog2 n : Int) - (natLog2 d : Int)
    let e : Int := if le2pow e0 n d then e0 else e0 - 1
    let e2 : Int := max e (-1022) - 52
    let (nn, dd) :=
      if 0 ≤ -e2 then (n * 2 ^ (-e2).toNat, d) else (n, d * 2 ^ e2.toNat)
    let t := nn / dd
    let r := nn % dd
    let m :=
      if 2 * r < dd then t
      else if dd < 2 * r then t + 1
      else if t % 2 = 0 then t else t + 1
    if dyadicOverflow m e2 then none else some (m, e2)

/-- Python `float()` on a string drawn from the class `[\d.]+`: no dot
gives the integer value, a single dot gives the decimal value provided at
least one digit is present, and two or more dots raise `ValueError`
(modelled as `none`); the decimal value is correctly rounded to binary64.
An overflow to infinity is also `none`: the infinity survives the
remaining float arithmetic and makes the final `int()` raise
`OverflowError`, which the enclosing `try` turns into the same `None`
result. -/
def pyFloatRun64 (cs : List Char) : Option (Nat × Int) :=
  match cs.splitOn '.' with
  | [a] => if a = [] then none else ratRoundToDouble (digitsToNat a) 1
  | [a, b] =>
    if a = [] ∧ b = [] then none
    else ratRoundToDouble (digitsToNat a * 10 ^ b.length + digitsToNat b)
      (10 ^ b.length)
  | _ => none

/-- IEEE binary64 addition of two non-negative doubles: the exact dyadic
sum, re-rounded. -/
def dyadicAddRound (x y : Nat × Int) : Option (Nat × Int) :=
  let e := min x.2 y.2
  let a := x.1 * 2 ^ (x.2 - e).toNat
  let b := y.1 * 2 ^ (y.2 - e).toNat
  if 0 ≤ e then ratRoundToDouble ((a + b) * 2 ^ e.toNat) 1
  else ratRoundToDouble (a + b) (2 ^ (-e).toNat)

/-- `total_seconds = hours * 3600 + minutes * 60 + seconds` in CPython:
the two integer products and their sum are exact (Python ints); adding the
float `seconds` converts that integer to binary64 (an `OverflowError`
there is caught by the enclosing `try`, hence `none`) and performs one
IEEE addition. -/
def pyTotalSeconds64 (h m : Nat) (sec : Nat × Int) : Option (Nat × Int) :=
  match ratRoundToDouble (h * 3600 + m * 60) 1 with
  | none => none
  | some fI => dyadicAddRound fI sec

/-- `total_seconds * 10_000_000` in CPython: `10_000_000` converts to
binary64 exactly and one IEEE multiplication rounds the exact product. -/
def pyMulTicks64 (t : Nat × Int) : Option (Nat × Int) :=
  if 0 ≤ t.2 then ratRoundToDouble (t.1 * 10000000 * 2 ^ t.2.toNat) 1
  else ratRoundToDouble (t.1 * 10000000) (2 ^ (-t.2).toNat)

/-- Python `int()` of a non-negative finite double: truncation toward
zero. -/
def dyadicTrunc (p : Nat × Int) : Nat :=
  if 0 ≤ p.2 then p.1 * 2 ^ p.2.toNat else p.1 / 2 ^ (-p.2).toNat

/-- `BatchTranscriptionService._parse_duration_to_ticks`: `re.match` the
pattern `PT(?:(\d+)H)?(?:(\d+)M)?(?:([\d.]+)S)?` against the start of the
string (an empty string, or one not starting with `PT`, gives `None`; any
trailing unmatched text is ignored), then
`int((3600*hours + 60*minutes + seconds) * 10_000_000)` computed in
binary64 floating point: `seconds = float(group)`, the exact integer
`3600*hours + 60*minutes` is converted to binary64 by the addition, and
each `+`/`*` rounds once.  A seconds group that `float()` rejects, and
every overflow along the pipeline (an infinity makes `int()` raise
`OverflowError`, caught by the enclosing `try`), make the call return
`None`. -/
def parseDurationToTicks (s : String) : Option Int :=
  if s = "" then none
  else
    match s.data with
    | p :: t :: rest =>
      if p = 'P' ∧ t = 'T' then
        let (g1, r1) := tryNumGroup 'H' Char.isDigit rest
        let (g2, r2) := tryNumGroup 'M' Char.isDigit r1
        let (g3, _) := tryNumGroup 'S' (fun c => c.isDigit || c = '.') r2
        let hours : Nat := match g1 with | some ds => digitsToNat ds | none => 0
        let minutes : Nat := match g2 with | some ds => digitsToNat ds | none => 0
        let secondsOpt : Option (Nat × Int) :=
          match g3 with
          | some ds => pyFloatRun64 ds
          | none => some (0, 0)
        match secondsOpt with
        | none => none
        | some sec =>
          match pyTotalSeconds64 hours minutes sec with
          | none => none
          | some total =>
            match pyMulTicks64 total with
            | none => none
            | some prod => some (dyadicTrunc prod : Int)
      else none
    | _ => none

/-- Python truthiness of an optional string (`not x` is true for `None`
and for the empty string). -/
def pyFalsyStr (o : Option String) : Bool :=
  match o with
  | none => true
  | some s => s = ""

/-- `route_helpers.validate_segment_update`: returns
`(text_changed, speaker_changed, error_message)`.  An out-of-range (or
missing) index and a no-op request are validation errors. -/
def validateSegmentUpdate (segmentIndex : Option Int) (newText oldText : String)
    (newSpeaker : Option String) (oldSpeaker : String) (segmentsCount : Nat) :
    Bool × Bool × Option String :=
  match segmentIndex with
  | none => (false, false, some "Invalid segment index")
  | some si =>
    if si < 0 ∨ (segmentsCount : Int) ≤ si then
      (false, false, some "Invalid segment index")
    else
      let textChanged : Bool := newText ≠ oldText
      let speakerChanged : Bool :=
        match newSpeaker with
        | none => false
        | some ns => ns ≠ oldSpeaker
      if !textChanged ∧ !speakerChanged then
        (false, false, some "No changes detected")
      else (textChanged, speakerChanged, none)

/-- The fields of the audit entry built by `route_helpers.create_audit_entry`
(the wall-clock `timestamp` and the UI `startTime` string are omitted from
the model). -/
structure EditAudit where
  action : String
  segmentIndex : Int
  lineNumber : Int
  speaker : String
  oldText : String
  newText : String
  oldSpeaker : Option String := none
  newSpeaker : Option String := none
deriving DecidableEq, Repr

/-- `route_helpers.create_audit_entry`: choose the action label from which
fields changed; the speaker pair is recorded only for a speaker change with
both values present. -/
def createAuditEntry (seg : Seg) (segmentIndex : Int) (oldText newText : String)
    (oldSpeaker newSpeaker : Option String) (textChanged speakerChanged : Bool) :
    EditAudit :=
  let action :=
    if speakerChanged ∧ textChanged then "edit_with_speaker_change"
    else if speakerChanged = true then "speaker_change"
    else "edit"
  let base : EditAudit :=
    { action := action, segmentIndex := segmentIndex, lineNumber := seg.lineNumber,
      speaker := seg.speaker, oldText := oldText, newText := newText }
  if speakerChanged ∧ oldSpeaker ≠ none ∧ newSpeaker ≠ none then
    { base with oldSpeaker := oldSpeaker, newSpeaker := newSpeaker }
  else base

/-- `app.update_segment_text` (lines 383-423 of `app.py`), acting on the
request's segment dictionaries: validate the index and the change, capture
`originalText`/`originalSpeaker` on a first edit (the Python guard is
`not segment_data.get(...)`, i.e. the field is `None` or empty), write the
new values, and append one audit entry.  Raised validation errors are the
`Except.error` branch. -/
def updateSegmentText (segments : List Seg) (segmentIndex : Int) (newText : String)
    (newSpeaker : Option String) (auditLog : List EditAudit) :
    Except String (List Seg × List EditAudit × EditAudit) :=
  if segmentIndex < 0 ∨ (segments.length : Int) ≤ segmentIndex then
    .error "Invalid segment index"
  else
    match segments.get? segmentIndex.toNat with
    | none => .error "Invalid segment index"
    | some seg =>
      let oldText := seg.text
      let oldSpeaker := seg.speaker
      match validateSegmentUpdate (some segmentIndex) newText oldText newSpeaker
          oldSpeaker segments.length with
      | (_, _, some err) => .error err
      | (textChanged, speakerChanged, none) =>
        let seg1 :=
          if textChanged ∧ pyFalsyStr seg.originalText then
            { seg with originalText := some oldText }
          else seg
        let seg2 :=
          if speakerChanged ∧ pyFalsyStr seg1.originalSpeaker then
            { seg1 with originalSpeaker := some oldSpeaker }
          else seg1
        let seg3 := { seg2 with text := newText }
        let seg4 :=
          if speakerChanged then { seg3 with speaker := newSpeaker.getD seg3.speaker }
          else seg3
        let entry := createAuditEntry seg4 segmentIndex oldText newText
          (some oldSpeaker) newSpeaker textChanged speakerChanged
        .ok (segments.set segmentIndex.toNat seg4, auditLog ++ [entry], entry)

/-- Indices of the segments whose speaker equals `oldSpeaker`, in order —
the `affected_segments` list collected by `update_speaker_names`. -/
def matchedIndices (segments : List Seg) (oldSpeaker : String) : List Nat :=
  segments.enum.filterMap (fun p => if p.2.speaker = oldSpeaker then some p.1 else none)

/-- Insert into a `≤`-sorted list of strings. -/
def insertStr (x : String) : List String → List String
  | [] => [x]
  | y :: ys => if x ≤ y then x :: y :: ys else y :: insertStr x ys

/-- `sorted(...)` on a list of strings (insertion sort; on the distinct
elements produced by `set(...)` this agrees with Python's sort). -/
def sortStrs (l : List String) : List String := l.foldr insertStr []

/-- `sorted(list(set(l)))`: the sorted list of distinct elements. -/
def sortedDedup (l : List String) : List String := sortStrs l.eraseDups

/-- The human-readable description `update_speaker_names` puts in the bulk
audit entry, by operation type. -/
def bulkDescription (operationType oldSpeaker newSpeaker : String) (count : Nat) : String :=
  if operationType = "rename" then
    "Renamed speaker \x22" ++ oldSpeaker ++ "\x22 to \x22" ++ newSpeaker ++
      "\x22 across " ++ toString count ++ " segment(s)"
  else if operationType = "delete" then
    "Deleted speaker \x22" ++ oldSpeaker ++ "\x22 and reassigned " ++
      toString count ++ " segment(s) to \x22" ++ newSpeaker ++ "\x22"
  else
    "Reassigned " ++ toString count ++ " segment(s) from \x22" ++ oldSpeaker ++
      "\x22 to \x22" ++ newSpeaker ++ "\x22"

/-- The audit entry appended by a bulk speaker operation. -/
structure BulkAudit where
  action : String
  segmentCount : Nat
  affectedSegments : List Nat
  oldSpeaker : String
  newSpeaker : String
  description : String
deriving DecidableEq, Repr

/-- `app.update_speaker_names` core (lines 281-328 of `app.py`): when
`oldSpeaker`, `newSpeaker` and `operationType` are all truthy, reassign
every matching segment, update the roster (`rename` replaces in place then
dedups and sorts — only when the old name is in the roster; `delete`
removes the old name, but only inside the `segment_count > 0` branch), and
append exactly one audit entry when at least one segment matched.
Returns `(segments, availableSpeakers, auditLog)`. -/
def updateSpeakerNames (segments : List Seg) (availableSpeakers : List String)
    (oldSpeaker newSpeaker operationType : Option String) (auditLog : List BulkAudit) :
    List Seg × List String × List BulkAudit :=
  if pyFalsyStr oldSpeaker ∨ pyFalsyStr newSpeaker ∨ pyFalsyStr operationType then
    (segments, availableSpeakers, auditLog)
  else
    let os := oldSpeaker.getD ""
    let ns := newSpeaker.getD ""
    let op := operationType.getD ""
    let affected := matchedIndices segments os
    let segmentCount := affected.length
    let segments2 := segments.map (fun s =>
      if s.speaker = os then { s with speaker := ns } else s)
    let roster1 :=
      if op = "rename" ∧ os ∈ availableSpeakers then
        sortedDedup (availableSpeakers.map (fun s => if s = os then ns else s))
      else availableSpeakers
    if 0 < segmentCount then
      let roster2 :=
        if op = "delete" ∧ os ∈ roster1 then roster1.erase os else roster1
      let entry : BulkAudit :=
        { action := "bulk_speaker_" ++ op, segmentCount := segmentCount,
          affectedSegments := affected, oldSpeaker := os, newSpeaker := ns,
          description := bulkDescription op os ns segmentCount }
      (segments2, roster2, auditLog ++ [entry])
    else (segments2, roster1, auditLog)

/-- A job record as the cache and job list see it: identity, status, and
input file names (`_dict_to_job` / `_parse_job_data` both produce these
fields; the remaining fields play no role in the cache logic). -/
structure CachedJob where
  id : String
  status : String
  files : List String
deriving DecidableEq, Repr

/-- Insert into a Python-dict-like association list: an existing key keeps
its position and gets the new value, a new key is appended. -/
def dictSet (m : List (String × CachedJob)) (k : String) (v : CachedJob) :
    List (String × CachedJob) :=
  if m.any (fun p => p.1 = k) then
    m.map (fun p => if p.1 = k then (k, v) else p)
  else m ++ [(k, v)]

/-- Python dict lookup on the association list. -/
def lookupDict (m : List (String × CachedJob)) (k : String) : Option CachedJob :=
  (m.find? (fun p => p.1 = k)).map (·.2)

/-- `status in ['Succeeded', 'Failed']` — the terminal-state test. -/
def isTerminalStatus (st : String) : Bool :=
  st = "Succeeded" || st = "Failed"

/-- The cache partition of `get_transcription_jobs` (lines 405-419 of
`batch_service.py`): with a non-empty `cached_jobs` list and
`force_refresh` false, terminal jobs go into `cached_completed_jobs`
(a dict keyed by id) and every other job id into `jobs_to_refresh`;
otherwise both are empty (the cache is bypassed). -/
def partitionJobCache (cachedJobs : List CachedJob) (forceRefresh : Bool) :
    List (String × CachedJob) × List String :=
  if cachedJobs ≠ [] ∧ !forceRefresh then
    cachedJobs.foldl
      (fun st j =>
        if isTerminalStatus j.status then (dictSet st.1 j.id j, st.2)
        else (st.1, st.2 ++ [j.id]))
      ([], [])
  else ([], [])

/-- The first pass over the platform's job list (lines 436-461): a job
found in the cache is emitted from its cached record, a fresh job from its
parsed record; any emitted job whose file list is empty is queued in
`jobs_to_process` for the parallel files-only fetch.  Returns
`(jobs, jobs_to_process ids)`. -/
def processJobList (platformJobs : List CachedJob) (cache : List (String × CachedJob)) :
    List CachedJob × List String :=
  platformJobs.foldl
    (fun st p =>
      match lookupDict cache p.id with
      | some c => (st.1 ++ [c], if c.files = [] then st.2 ++ [c.id] else st.2)
      | none => (st.1 ++ [p], if p.files = [] then st.2 ++ [p.id] else st.2))
    ([], [])

/-- A default-whitespace character for Python's `str.strip()` (ASCII
subset). -/
def isPySpace (c : Char) : Bool :=
  c = ' ' || c = '\t' || c = '\n' || c = '\x0d' || c = '\x0b' || c = '\x0c'

/-- Value of a digit run that may contain single underscores between
digits, continuing after the first digit has been read — the grammar of a
Python `int()` literal body. -/
def pyDigitsRest (acc : Nat) : List Char → Option Nat
  | [] => some acc
  | '_' :: c :: rest =>
    if c.isDigit then pyDigitsRest (10 * acc + digitVal c) rest else none
  | '_' :: [] => none
  | c :: rest =>
    if c.isDigit then pyDigitsRest (10 * acc + digitVal c) rest else none

/-- Digits with optional single underscores between them, at least one
digit. -/
def pyDigitsU (cs : List Char) : Option Nat :=
  match cs with
  | [] => none
  | c :: rest => if c.isDigit then pyDigitsRest (digitVal c) rest else none

/-- Python `int(s)` on a string: strip surrounding whitespace, allow one
optional sign, then digits with optional underscores between them;
`ValueError` is `none`. -/
def pyIntParse (s : String) : Option Int :=
  let cs := ((s.data.dropWhile isPySpace).reverse.dropWhile isPySpace).reverse
  match cs with
  | '+' :: rest => (pyDigitsU rest).map (fun n => (n : Int))
  | '-' :: rest => (pyDigitsU rest).map (fun n => -(n : Int))
  | _ => (pyDigitsU cs).map (fun n => (n : Int))

/-- The tuple returned by `validate_batch_transcription_params`. -/
structure BatchParamsOutcome where
  enableDiarization : Bool
  minSpeakers : Int
  maxSpeakers : Int
  error : Option String
deriving DecidableEq, Repr

/-- `route_helpers.validate_batch_transcription_params`: parse the three
strings; a `ValueError` from `int()` or an out-of-range speaker count
yields an error tuple (the Python error message embeds the exception text,
abbreviated here to its fixed prefix). -/
def validateBatchTranscriptionParams (enableStr minStr maxStr : String) :
    BatchParamsOutcome :=
  let enable := enableStr.toLower = "true"
  match pyIntParse minStr with
  | none => ⟨false, 0, 0, some "Invalid parameter format"⟩
  | some minSpeakers =>
    match pyIntParse maxStr with
    | none => ⟨false, 0, 0, some "Invalid parameter format"⟩
    | some maxSpeakers =>
      if minSpeakers < 1 then
        ⟨false, 0, 0, some "Minimum speakers must be at least 1"⟩
      else if maxSpeakers < minSpeakers then
        ⟨false, 0, 0,
          some "Maximum speakers must be greater than or equal to minimum speakers"⟩
      else if maxSpeakers > 20 then
        ⟨false, 0, 0, some "Maximum speakers cannot exceed 20"⟩
      else ⟨enable, minSpeakers, maxSpeakers, none⟩

/-! ## Theorems -/

/-- C8: the access-token expiry check is total and never raises: a URL
whose query carries `se=2020-01-01T00:00:00Z` is reported expired at every
`now` in 2025; a URL without an `se` parameter is reported non-expiring
(false); an `se` value the timestamp format rejects is likewise reported
false instead of raising. -/
theorem c8_token_expiry :
    (∀ url now, parseSasExpiry url = some "2020-01-01T00:00:00Z" → now.year = 2025 →
      isSasExpired now url = true) ∧
    (∀ url now, parseSasExpiry url = none → isSasExpired now url = false) ∧
    (∀ url now es, parseSasExpiry url = some es → pyStrptimeTsZ es = none →
      isSasExpired now url = false) := by
  refine ⟨fun url now h hy => ?_, fun url now h => ?_, fun url now es h hts => ?_⟩
  · unfold isSasExpired
    rw [h]
    have h1 : pyStrptimeTsZ "2020-01-01T00:00:00Z" = some ⟨2020, 1, 1, 0, 0, 0⟩ := by
      decide
    simp only [h1, if_neg (by decide : ¬("2020-01-01T00:00:00Z" = ""))]
    unfold dtLe
    simp only [hy]
    norm_num
  · unfold isSasExpired
    rw [h]
  · unfold isSasExpired
    rw [h]
    dsimp only
    by_cases hes : es = ""
    · rw [if_pos hes]
    · rw [if_neg hes, hts]

/-- C8 witness: a concrete signed URL with the 2020 expiry is expired at a
concrete 2025 instant, and a concrete URL without `se` is not. -/
theorem c8_token_expiry_witness :
    parseSasExpiry
        "https://acct.blob.core.windows.net/res/0.json?sv=2023-01-03&se=2020-01-01T00:00:00Z&sig=abc"
      = some "2020-01-01T00:00:00Z" ∧
    isSasExpired ⟨2025, 6, 15, 12, 30, 0⟩
        "https://acct.blob.core.windows.net/res/0.json?sv=2023-01-03&se=2020-01-01T00:00:00Z&sig=abc"
      = true ∧
    isSasExpired ⟨2025, 6, 15, 12, 30, 0⟩
        "https://acct.blob.core.windows.net/res/0.json?sv=2023-01-03&sig=abc" = false := by
  refine ⟨by decide, ?_, ?_⟩
  · exact c8_token_expiry.1 _ ⟨2025, 6, 15, 12, 30, 0⟩ (by decide) rfl
  · exact c8_token_expiry.2.1 _ ⟨2025, 6, 15, 12, 30, 0⟩ (by decide)

/-- C10: batch-parameter validation is total; it succeeds only with
`1 ≤ minSpeakers ≤ maxSpeakers ≤ 20`, and returns an error message whenever
either count string is not an integer, or the parsed counts violate
`min ≥ 1`, `min ≤ max`, or `max ≤ 20`. -/
theorem c10_batch_params (e mn mx : String) :
    ((validateBatchTranscriptionParams e mn mx).error = none →
      1 ≤ (validateBatchTranscriptionParams e mn mx).minSpeakers ∧
      (validateBatchTranscriptionParams e mn mx).minSpeakers
        ≤ (validateBatchTranscriptionParams e mn mx).maxSpeakers ∧
      (validateBatchTranscriptionParams e mn mx).maxSpeakers ≤ 20) ∧
    (pyIntParse mn = none ∨ pyIntParse mx = none →
      (validateBatchTranscriptionParams e mn mx).error ≠ none) ∧
    (∀ a b : Int, pyIntParse mn = some a → pyIntParse mx = some b →
      a < 1 ∨ b < a ∨ 20 < b →
      (validateBatchTranscriptionParams e mn mx).error ≠ none) := by
  rcases hmn : pyIntParse mn with _ | a
  · simp only [validateBatchTranscriptionParams, hmn]
    exact ⟨fun h => by simp at h, fun h2 => by simp, fun a b ha hb h => by simp⟩
  · rcases hmx : pyIntParse mx with _ | b
    · simp only [validateBatchTranscriptionParams, hmn, hmx]
      exact ⟨fun h => by simp at h, fun h2 => by simp, fun a b ha hb h => by simp⟩
    · simp only [validateBatchTranscriptionParams, hmn, hmx]
      refine ⟨?_, ?_, ?_⟩
      · intro h
        by_cases h1 : a < 1
        · simp [h1] at h
        · by_cases h2 : b < a
          · simp [h1, h2] at h
          · by_cases h3 : b > 20
            · simp [h1, h2, h3] at h
            · simp [h1, h2, h3]
              omega
      · rintro (h | h)
        · cases h
        · cases h
      · intro a2 b2 ha hb hbad
        injection ha with ha
        injection hb with hb
        subst ha
        subst hb
        rcases hbad with h1 | h2 | h3
        · simp [h1]
        · by_cases h1 : a < 1
          · simp [h1]
          · simp [h1, h2]
        · by_cases h1 : a < 1
          · simp [h1]
          · by_cases h2 : b < a
            · simp [h1, h2]
            · simp [h1, h2, h3]

/-- C10 witness: concrete instances — a valid triple succeeds with the
bounds holding, a non-integer string and an out-of-range pair each fail. -/
theorem c10_batch_params_witness :
    ((validateBatchTranscriptionParams "true" "2" "5").error = none ∧
      1 ≤ (validateBatchTranscriptionParams "true" "2" "5").minSpeakers ∧
      (validateBatchTranscriptionParams "true" "2" "5").minSpeakers
        ≤ (validateBatchTranscriptionParams "true" "2" "5").maxSpeakers ∧
      (validateBatchTranscriptionParams "true" "2" "5").maxSpeakers ≤ 20) ∧
    (validateBatchTranscriptionParams "true" "abc" "5").error ≠ none ∧
    (validateBatchTranscriptionParams "true" "2" "25").error ≠ none := by
  refine ⟨⟨by decide, (c10_batch_params "true" "2" "5").1 (by decide)⟩, ?_, ?_⟩
  · exact (c10_batch_params "true" "abc" "5").2.1 (Or.inl (by decide))
  · exact (c10_batch_params "true" "2" "25").2.2 2 25 (by decide) (by decide)
      (by norm_num)

/-- C5: a segment-text update with an out-of-range index, or a no-op
request (same text, and the new speaker absent or equal to the current
one), is rejected with a validation error; the pure result is the error
branch, so no segment is modified and no audit entry is appended. -/
theorem c5_reject_invalid (segments : List Seg) (idx : Int) (newText : String)
    (newSpeaker : Option String) (log : List EditAudit) :
    (idx < 0 ∨ (segments.length : Int) ≤ idx →
      updateSegmentText segments idx newText newSpeaker log
        = .error "Invalid segment index") ∧
    (∀ seg, segments.get? idx.toNat = some seg → 0 ≤ idx →
      idx < (segments.length : Int) → newText = seg.text →
      (newSpeaker = none ∨ newSpeaker = some seg.speaker) →
      updateSegmentText segments idx newText newSpeaker log
        = .error "No changes detected") := by
  constructor
  · intro h
    unfold updateSegmentText
    rw [if_pos h]
  · intro seg hseg h0 hlen hnt hns
    have hcond : ¬(idx < 0 ∨ (segments.length : Int) ≤ idx) := by omega
    subst hnt
    rcases hns with h | h <;> subst h <;>
      (unfold updateSegmentText
       rw [if_neg hcond, hseg]
       dsimp only
       unfold validateSegmentUpdate
       dsimp only
       rw [if_neg hcond]
       simp)

/-- A one-segment list used to exercise the validation paths. -/
def exSegOne : List Seg :=
  [{ speaker := "Speaker 1", text := "hi", offsetInTicks := 0, durationInTicks := 10,
     lineNumber := 1 }]

/-- C5 witness: at a concrete one-segment list, index 5 is rejected as an
invalid index and an identical-text request is rejected as a no-op. -/
theorem c5_reject_invalid_witness :
    updateSegmentText exSegOne 5 "x" none [] = .error "Invalid segment index" ∧
    updateSegmentText exSegOne 0 "hi" none [] = .error "No changes detected" := by
  constructor
  · exact (c5_reject_invalid exSegOne 5 "x" none []).1 (by decide)
  · exact (c5_reject_invalid exSegOne 0 "hi" none []).2 _ rfl (by decide) (by decide)
      rfl (Or.inl rfl)

/-- C4: a bulk speaker operation with truthy parameters appends exactly one
audit entry when at least one segment matched `oldSpeaker` — carrying the
`bulk_speaker_<op>` action, a `segmentCount` equal to the number of matched
segments and `affectedSegments` listing exactly their indices — and appends
nothing when no segment matched. -/
theorem c4_bulk_audit (segments : List Seg) (roster : List String) (os ns op : String)
    (log : List BulkAudit) (hos : os ≠ "") (hns : ns ≠ "") (hop : op ≠ "") :
    (matchedIndices segments os ≠ [] →
      (updateSpeakerNames segments roster (some os) (some ns) (some op) log).2.2
        = log ++ [{ action := "bulk_speaker_" ++ op,
                    segmentCount := (matchedIndices segments os).length,
                    affectedSegments := matchedIndices segments os,
                    oldSpeaker := os, newSpeaker := ns,
                    description := bulkDescription op os ns
                      (matchedIndices segments os).length }]) ∧
    (matchedIndices segments os = [] →
      (updateSpeakerNames segments roster (some os) (some ns) (some op) log).2.2
        = log) := by
  unfold updateSpeakerNames
  rw [if_neg (by simp [pyFalsyStr, hos, hns, hop])]
  constructor
  · intro h
    have hpos : 0 < (matchedIndices segments os).length := by
      cases hm : matchedIndices segments os with
      | nil => exact absurd hm h
      | cons a t => simp [hm]
    simp only [Option.getD_some]
    rw [if_pos hpos]
  · intro h
    simp only [Option.getD_some]
    rw [if_neg (by simp [h])]

/-- A three-segment transcript where segments 0 and 2 belong to
`Speaker 1`. -/
def exSegThree : List Seg :=
  [{ speaker := "Speaker 1", text := "a", offsetInTicks := 0, durationInTicks := 1,
     lineNumber := 1 },
   { speaker := "Speaker 2", text := "b", offsetInTicks := 1, durationInTicks := 1,
     lineNumber := 2 },
   { speaker := "Speaker 1", text := "c", offsetInTicks := 2, durationInTicks := 1,
     lineNumber := 3 }]

/-- C4 witness: renaming `Speaker 1` to `Alex` over a concrete list where
segments 0 and 2 match appends exactly one entry with count 2 and indices
`[0, 2]`; a rename matching nothing appends no entry. -/
theorem c4_bulk_audit_witness :
    (updateSpeakerNames exSegThree ["Speaker 1", "Speaker 2"] (some "Speaker 1")
        (some "Alex") (some "rename") []).2.2
      = [{ action := "bulk_speaker_rename", segmentCount := 2,
           affectedSegments := [0, 2], oldSpeaker := "Speaker 1",
           newSpeaker := "Alex",
           description := bulkDescription "rename" "Speaker 1" "Alex" 2 }] ∧
    (updateSpeakerNames exSegOne ["Speaker 1"] (some "Speaker 9") (some "Alex")
        (some "rename") []).2.2
      = [] := by
  constructor
  · have h := (c4_bulk_audit exSegThree ["Speaker 1", "Speaker 2"] "Speaker 1"
      "Alex" "rename" [] (by decide) (by decide) (by decide)).1 (by decide)
    rw [h]
    decide
  · exact (c4_bulk_audit exSegOne ["Speaker 1"] "Speaker 9" "Alex" "rename" []
      (by decide) (by decide) (by decide)).2 (by decide)

/-- A transcript whose single segment belongs to speaker `A`; the roster
also lists `B`, which has no segments. -/
def exSegA : List Seg :=
  [{ speaker := "A", text := "t", offsetInTicks := 0, durationInTicks := 1,
     lineNumber := 1 }]

/-- C3 counterexample: deleting speaker `B` (reassigning to `A`) when no
segment has speaker `B` leaves `B` in the roster — the roster removal sits
inside the `segment_count > 0` branch, so the claim that a delete always
removes `oldSpeaker` from the roster entirely is false. -/
theorem c3_counterexample :
    "B" ∈ (updateSpeakerNames exSegA ["A", "B"] (some "B") (some "A")
      (some "delete") []).2.1 := by
  decide

/-- Unfolding of `updateSpeakerNames` for truthy parameters: the falsiness
guard is discharged and the `getD` projections are reduced. -/
theorem updateSpeakerNames_eq (segments : List Seg) (roster : List String)
    (os ns op : String) (log : List BulkAudit)
    (hos : os ≠ "") (hns : ns ≠ "") (hop : op ≠ "") :
    updateSpeakerNames segments roster (some os) (some ns) (some op) log
      = (let affected := matchedIndices segments os
         let segments2 := segments.map (fun s =>
           if s.speaker = os then { s with speaker := ns } else s)
         let roster1 :=
           if op = "rename" ∧ os ∈ roster then
             sortedDedup (roster.map (fun s => if s = os then ns else s))
           else roster
         if 0 < affected.length then
           (segments2,
            (if op = "delete" ∧ os ∈ roster1 then roster1.erase os else roster1),
            log ++ [{ action := "bulk_speaker_" ++ op,
                      segmentCount := affected.length,
                      affectedSegments := affected, oldSpeaker := os,
                      newSpeaker := ns,
                      description := bulkDescription op os ns affected.length }])
         else (segments2, roster1, log)) := by
  unfold updateSpeakerNames
  rw [if_neg (by simp [pyFalsyStr, hos, hns, hop])]
  rfl

/-- C3 (amended): for truthy parameters, every matching segment is
reassigned and non-matching segments are unchanged under all three
operations; `reassign` leaves the roster untouched; `rename` with the old
name in the roster replaces it and then dedups and sorts; and `delete`
removes `oldSpeaker` from the roster (first occurrence, hence entirely for
a duplicate-free roster) provided at least one segment matched — with zero
matches the roster is unchanged. -/
theorem c3_bulk_speaker_ops (segments : List Seg) (roster : List String)
    (os ns : String) (log : List BulkAudit) (hos : os ≠ "") (hns : ns ≠ "") :
    (∀ op, op ≠ "" →
      (updateSpeakerNames segments roster (some os) (some ns) (some op) log).1
        = segments.map (fun s => if s.speaker = os then { s with speaker := ns }
            else s)) ∧
    ((updateSpeakerNames segments roster (some os) (some ns) (some "reassign") log).2.1
      = roster) ∧
    (os ∈ roster →
      (updateSpeakerNames segments roster (some os) (some ns) (some "rename") log).2.1
        = sortedDedup (roster.map (fun s => if s = os then ns else s))) ∧
    (matchedIndices segments os ≠ [] →
      (updateSpeakerNames segments roster (some os) (some ns) (some "delete") log).2.1
        = roster.erase os ∧
      (roster.Nodup →
        os ∉ (updateSpeakerNames segments roster (some os) (some ns)
          (some "delete") log).2.1)) := by
  refine ⟨?_, ?_, ?_, ?_⟩
  · intro op hop
    rw [updateSpeakerNames_eq segments roster os ns op log hos hns hop]
    dsimp only
    by_cases hpos : 0 < (matchedIndices segments os).length
    · rw [if_pos hpos]
    · rw [if_neg hpos]
  · rw [updateSpeakerNames_eq segments roster os ns "reassign" log hos hns
      (by decide)]
    dsimp only
    have hc1 : ¬(("reassign" : String) = "rename" ∧ os ∈ roster) :=
      fun h => absurd h.1 (by decide)
    rw [if_neg hc1]
    by_cases hpos : 0 < (matchedIndices segments os).length
    · rw [if_pos hpos]
      dsimp only
      have hc2 : ¬(("reassign" : String) = "delete" ∧ os ∈ roster) :=
        fun h => absurd h.1 (by decide)
      rw [if_neg hc2]
    · rw [if_neg hpos]
  · intro hmem
    rw [updateSpeakerNames_eq segments roster os ns "rename" log hos hns
      (by decide)]
    dsimp only
    have hcr : ("rename" : String) = "rename" ∧ os ∈ roster := ⟨rfl, hmem⟩
    rw [if_pos hcr]
    by_cases hpos : 0 < (matchedIndices segments os).length
    · rw [if_pos hpos]
      dsimp only
      have hc3 : ¬(("rename" : String) = "delete" ∧
          os ∈ sortedDedup (roster.map (fun s => if s = os then ns else s))) :=
        fun h => absurd h.1 (by decide)
      rw [if_neg hc3]
    · rw [if_neg hpos]
  · intro hne
    have hpos : 0 < (matchedIndices segments os).length :=
      List.length_pos.mpr hne
    have hres : (updateSpeakerNames segments roster (some os) (some ns)
        (some "delete") log).2.1 = roster.erase os := by
      rw [updateSpeakerNames_eq segments roster os ns "delete" log hos hns
        (by decide)]
      dsimp only
      have hc4 : ¬(("delete" : String) = "rename" ∧ os ∈ roster) :=
        fun h => absurd h.1 (by decide)
      rw [if_neg hc4, if_pos hpos]
      dsimp only
      by_cases hmem : os ∈ roster
      · have hcd : ("delete" : String) = "delete" ∧ os ∈ roster := ⟨rfl, hmem⟩
        rw [if_pos hcd]
      · have hc5 : ¬(("delete" : String) = "delete" ∧ os ∈ roster) :=
          fun h => absurd h.2 hmem
        rw [if_neg hc5, List.erase_of_not_mem hmem]
    refine ⟨hres, fun hnd hmem2 => ?_⟩
    rw [hres] at hmem2
    exact (List.Nodup.mem_erase_iff hnd).mp hmem2 |>.1 rfl

/-- The `speaker_changed` flag computed by `validate_segment_update`:
a speaker change requires a present new speaker that differs from the old
one. -/
def speakerChangedFlag (newSpeaker : Option String) (oldSpeaker : String) : Bool :=
  match newSpeaker with
  | none => false
  | some ns => decide (ns ≠ oldSpeaker)

/-- The segment value written back by a successful `update_segment_text`:
text always becomes the new text, the speaker changes when a speaker change
was validated, and each `original*` field is captured from the pre-change
value exactly when the change touches it and the field is Python-falsy
(`None` or the empty string). -/
def editedSeg (seg : Seg) (newText : String) (newSpeaker : Option String)
    (tc sc : Bool) : Seg :=
  { speaker := if sc then newSpeaker.getD seg.speaker else seg.speaker,
    text := newText,
    offsetInTicks := seg.offsetInTicks,
    durationInTicks := seg.durationInTicks,
    lineNumber := seg.lineNumber,
    originalSpeaker :=
      if sc ∧ pyFalsyStr seg.originalSpeaker then some seg.speaker
      else seg.originalSpeaker,
    originalText :=
      if tc ∧ pyFalsyStr seg.originalText then some seg.text
      else seg.originalText }

/-- A successful `update_segment_text` writes exactly `editedSeg` at the
requested index, with the changed-flags computed by
`validate_segment_update`. -/
theorem updateSegmentText_ok_decomp (segments : List Seg) (idx : Int)
    (newText : String) (newSpeaker : Option String) (log : List EditAudit)
    (out : List Seg × List EditAudit × EditAudit) (seg : Seg)
    (hseg : segments.get? idx.toNat = some seg)
    (hok : updateSegmentText segments idx newText newSpeaker log = .ok out) :
    out.1 = segments.set idx.toNat
      (editedSeg seg newText newSpeaker (decide (newText ≠ seg.text))
        (speakerChangedFlag newSpeaker seg.speaker)) := by
  by_cases hcond : idx < 0 ∨ (segments.length : Int) ≤ idx
  · exfalso
    unfold updateSegmentText at hok
    rw [if_pos hcond] at hok
    exact Except.noConfusion hok
  · unfold updateSegmentText at hok
    rw [if_neg hcond, hseg] at hok
    dsimp only at hok
    unfold validateSegmentUpdate at hok
    dsimp only at hok
    rw [if_neg hcond] at hok
    unfold speakerChangedFlag
    rcases newSpeaker with _ | ns
    · dsimp only at hok ⊢
      by_cases hnt : newText = seg.text
      · have h1 : decide (newText ≠ seg.text) = false :=
          decide_eq_false (fun h => h hnt)
        simp [h1] at hok
      · have h1 : decide (newText ≠ seg.text) = true := decide_eq_true hnt
        rw [h1] at hok ⊢
        rw [if_neg (by simp)] at hok
        dsimp only at hok
        injection hok with hok2
        rw [← hok2]
        dsimp only
        by_cases hft : pyFalsyStr seg.originalText = true
        · simp [editedSeg, hft]
        · simp [editedSeg, hft]
    · dsimp only at hok ⊢
      by_cases hnt : newText = seg.text
      · by_cases hsp : ns = seg.speaker
        · have h1 : decide (newText ≠ seg.text) = false :=
            decide_eq_false (fun h => h hnt)
          have h2 : decide (ns ≠ seg.speaker) = false :=
            decide_eq_false (fun h => h hsp)
          simp [h1, h2] at hok
        · have h1 : decide (newText ≠ seg.text) = false :=
            decide_eq_false (fun h => h hnt)
          have h2 : decide (ns ≠ seg.speaker) = true := decide_eq_true hsp
          rw [h1, h2] at hok ⊢
          rw [if_neg (by simp)] at hok
          dsimp only at hok
          injection hok with hok2
          rw [← hok2]
          dsimp only
          by_cases hfs : pyFalsyStr seg.originalSpeaker = true
          · simp [editedSeg, hfs]
          · simp [editedSeg, hfs]
      · by_cases hsp : ns = seg.speaker
        · have h1 : decide (newText ≠ seg.text) = true := decide_eq_true hnt
          have h2 : decide (ns ≠ seg.speaker) = false :=
            decide_eq_false (fun h => h hsp)
          rw [h1, h2] at hok ⊢
          rw [if_neg (by simp)] at hok
          dsimp only at hok
          injection hok with hok2
          rw [← hok2]
          dsimp only
          by_cases hft : pyFalsyStr seg.originalText = true
          · simp [editedSeg, hft]
          · simp [editedSeg, hft]
        · have h1 : decide (newText ≠ seg.text) = true := decide_eq_true hnt
          have h2 : decide (ns ≠ seg.speaker) = true := decide_eq_true hsp
          rw [h1, h2] at hok ⊢
          rw [if_neg (by simp)] at hok
          dsimp only at hok
          injection hok with hok2
          rw [← hok2]
          dsimp only
          by_cases hft : pyFalsyStr seg.originalText = true
          all_goals by_cases hfs : pyFalsyStr seg.originalSpeaker = true
          all_goals simp [editedSeg, hft, hfs]

/-- A segment whose text is initially empty, so that the first edit
captures an empty-string `originalText`. -/
def c2seg : Seg :=
  { speaker := "Speaker 1", text := "", offsetInTicks := 0, durationInTicks := 0,
    lineNumber := 1 }

/-- `originalText` of the segment after editing `c2seg`'s text twice
(first to `hello`, then to `world`). -/
def c2AfterTwoEdits : Option String :=
  match updateSegmentText [c2seg] 0 "hello" none [] with
  | .ok (segs, log, _) =>
    match updateSegmentText segs 0 "world" none log with
    | .ok (segs2, _, _) => (segs2.get? 0).bind (fun s => s.originalText)
    | .error _ => none
  | .error _ => none

/-- C2 counterexample: the guard `not segment_data.get('originalText')` is
a Python falsiness test, so an `originalText` captured as the empty string
is overwritten by the next edit.  Starting from a segment with text `""`,
after the first edit `originalText = ""` (the pre-edit value), but after
the second edit it is `"hello"` — not the value before the first edit —
refuting the claim that `originalText` is never overwritten by a later
edit. -/
theorem c2_counterexample :
    c2seg.text = "" ∧ c2AfterTwoEdits = some "hello" ∧
      c2AfterTwoEdits ≠ some c2seg.text := by
  decide

/-- C2 (amended): on a successful segment-text update, `originalText` is
captured from the pre-change value when the field is unset (`None`) and the
text changed; once it holds a non-empty value it is preserved by every
later successful edit (an empty captured value, however, can be
overwritten, as the counterexample shows).  The same holds for
`originalSpeaker` on speaker changes. -/
theorem c2_original_preservation (segments : List Seg) (idx : Int)
    (newText : String) (newSpeaker : Option String) (log : List EditAudit)
    (out : List Seg × List EditAudit × EditAudit) (seg : Seg)
    (hseg : segments.get? idx.toNat = some seg)
    (hok : updateSegmentText segments idx newText newSpeaker log = .ok out) :
    (seg.originalText = none → newText ≠ seg.text →
      (out.1.get? idx.toNat).bind (fun s => s.originalText) = some seg.text) ∧
    (∀ v, seg.originalText = some v → v ≠ "" →
      (out.1.get? idx.toNat).bind (fun s => s.originalText) = some v) ∧
    (∀ ns, newSpeaker = some ns → seg.originalSpeaker = none → ns ≠ seg.speaker →
      (out.1.get? idx.toNat).bind (fun s => s.originalSpeaker) = some seg.speaker) ∧
    (∀ v, seg.originalSpeaker = some v → v ≠ "" →
      (out.1.get? idx.toNat).bind (fun s => s.originalSpeaker) = some v) := by
  have hlt : idx.toNat < segments.length := (List.get?_eq_some.mp hseg).fst
  have hdecomp := updateSegmentText_ok_decomp segments idx newText newSpeaker log
    out seg hseg hok
  have hget : out.1.get? idx.toNat
      = some (editedSeg seg newText newSpeaker (decide (newText ≠ seg.text))
          (speakerChangedFlag newSpeaker seg.speaker)) := by
    rw [hdecomp, List.get?_eq_getElem?]
    exact List.getElem?_set_eq_of_lt _ hlt
  rw [hget]
  refine ⟨?_, ?_, ?_, ?_⟩
  · intro hOT hNT
    simp [editedSeg, pyFalsyStr, hOT, decide_eq_true hNT]
  · intro v hOT hV
    simp [editedSeg, pyFalsyStr, hOT, hV]
  · intro ns hns hOS hNS
    subst hns
    simp [editedSeg, speakerChangedFlag, pyFalsyStr, hOS, decide_eq_true hNS]
  · intro v hOS hV
    simp [editedSeg, speakerChangedFlag, pyFalsyStr, hOS, hV]

/-- The segment used by the C2 witness: text `a`, originals unset. -/
def c2segA : Seg :=
  { speaker := "Speaker 1", text := "a", offsetInTicks := 0, durationInTicks := 10,
    lineNumber := 1 }

/-- The concrete successful result of editing `c2segA`'s text to `b`. -/
def c2out1 : List Seg × List EditAudit × EditAudit :=
  match updateSegmentText [c2segA] 0 "b" none [] with
  | .ok out => out
  | .error _ =>
    ([], [], { action := "", segmentIndex := 0, lineNumber := 0, speaker := "",
               oldText := "", newText := "" })

/-- C2 witness: the first edit of `c2segA` (text `a` → `b`) captures
`originalText = "a"`. -/
theorem c2_original_preservation_witness :
    c2segA.originalText = none ∧ ("b" : String) ≠ c2segA.text ∧
    (c2out1.1.get? 0).bind (fun s => s.originalText) = some c2segA.text := by
  refine ⟨rfl, by decide, ?_⟩
  exact (c2_original_preservation [c2segA] 0 "b" none [] c2out1 c2segA rfl
    rfl).1 rfl (by decide)

/-- C3 witness: deleting `Speaker 2` (one matching segment) from the
concrete three-segment transcript removes it from the roster. -/
theorem c3_bulk_speaker_ops_witness :
    (updateSpeakerNames exSegThree ["Speaker 1", "Speaker 2"] (some "Speaker 2")
        (some "Speaker 1") (some "delete") []).2.1 = ["Speaker 1"] ∧
    "Speaker 2" ∉ (updateSpeakerNames exSegThree ["Speaker 1", "Speaker 2"]
        (some "Speaker 2") (some "Speaker 1") (some "delete") []).2.1 := by
  have h := (c3_bulk_speaker_ops exSegThree ["Speaker 1", "Speaker 2"]
    "Speaker 2" "Speaker 1" [] (by decide) (by decide)).2.2.2 (by decide)
  constructor
  · rw [h.1]
    decide
  · exact h.2 (by decide)

/-- Take the maximal run at the front: `takeWhile` over a run of class
characters followed by a non-class character yields exactly the run. -/
theorem takeWhile_run_append (p : Char → Bool) (l : List Char) (c : Char)
    (r : List Char) (hl : ∀ x ∈ l, p x = true) (hc : p c = false) :
    (l ++ c :: r).takeWhile p = l := by
  induction l with
  | nil => simp [List.takeWhile_cons, hc]
  | cons x xs ih =>
    have hx : p x = true := hl x (List.mem_cons_self x xs)
    simp only [List.cons_append, List.takeWhile_cons, hx, if_true]
    rw [ih (fun y hy => hl y (List.mem_cons_of_mem x hy))]

/-- The companion of `takeWhile_run_append` for `dropWhile`. -/
theorem dropWhile_run_append (p : Char → Bool) (l : List Char) (c : Char)
    (r : List Char) (hl : ∀ x ∈ l, p x = true) (hc : p c = false) :
    (l ++ c :: r).dropWhile p = c :: r := by
  induction l with
  | nil => simp [List.dropWhile_cons, hc]
  | cons x xs ih =>
    have hx : p x = true := hl x (List.mem_cons_self x xs)
    simp only [List.cons_append, List.dropWhile_cons, hx, if_true]
    exact ih (fun y hy => hl y (List.mem_cons_of_mem x hy))

/-- A regex group `(?:(X)L)?` consumes exactly a non-empty class run
followed by its letter. -/
theorem tryNumGroup_exact (letter : Char) (cls : Char → Bool) (run r : List Char)
    (hrun : run ≠ []) (hall : ∀ x ∈ run, cls x = true) (hl : cls letter = false) :
    tryNumGroup letter cls (run ++ letter :: r) = (some run, r) := by
  unfold tryNumGroup
  rw [takeWhile_run_append cls run letter r hall hl,
    dropWhile_run_append cls run letter r hall hl]
  rw [if_neg hrun]
  simp

/-- The core parse of a full-form duration `PT<h>H<m>M<s>S`: all three
regex groups are present and the binary64 pipeline succeeds, so the result
is the truncated tick count of the floating-point product. -/
theorem parseDuration_groups (hd md sd : List Char) (sec total prod : Nat × Int)
    (hhd : hd ≠ []) (hhdd : ∀ c ∈ hd, c.isDigit = true)
    (hmd : md ≠ []) (hmdd : ∀ c ∈ md, c.isDigit = true)
    (hsdd : ∀ c ∈ sd, (c.isDigit || c = '.') = true)
    (hsec : pyFloatRun64 sd = some sec)
    (htotal : pyTotalSeconds64 (digitsToNat hd) (digitsToNat md) sec = some total)
    (hprod : pyMulTicks64 total = some prod) :
    parseDurationToTicks
        (String.mk ('P' :: 'T' :: (hd ++ 'H' :: (md ++ 'M' :: (sd ++ ['S'])))))
      = some (dyadicTrunc prod : Int) := by
  have hsd : sd ≠ [] := by
    intro h
    subst h
    rw [show pyFloatRun64 ([] : List Char) = none from rfl] at hsec
    cases hsec
  have hne : String.mk ('P' :: 'T' :: (hd ++ 'H' :: (md ++ 'M' :: (sd ++ ['S']))))
      ≠ "" := by
    intro h
    exact List.noConfusion (congrArg String.data h)
  unfold parseDurationToTicks
  rw [if_neg hne]
  dsimp only
  rw [if_pos ⟨rfl, rfl⟩]
  rw [tryNumGroup_exact 'H' Char.isDigit hd _ hhd hhdd (by decide)]
  dsimp only
  rw [tryNumGroup_exact 'M' Char.isDigit md _ hmd hmdd (by decide)]
  dsimp only
  rw [tryNumGroup_exact 'S' (fun c => c.isDigit || c = '.') sd [] hsd hsdd
    (by decide)]
  dsimp only
  rw [hsec]
  dsimp only
  rw [htotal]
  dsimp only
  rw [hprod]

set_option maxRecDepth 16384 in
set_option exponentiation.threshold 2048 in
/-- C9 counterexample: `int()` truncates toward zero, it does not round.
`PT0H0M0.00000017S` encodes 0.00000017 s, i.e. 1.7 ticks (the nearest
binary64 to 0.00000017 times 10^7 rounds to a double just above 1.7); the
claim's `round(totalSeconds × 10,000,000)` gives 2, but the code returns
1. -/
theorem c9_counterexample :
    parseDurationToTicks "PT0H0M0.00000017S" = some 1 ∧
    round (((17 : ℚ) / 100000000) * 10000000) = (2 : Int) ∧
    (1 : Int) ≠ 2 := by
  refine ⟨by decide, ?_, by decide⟩
  rw [round_eq, Int.floor_eq_iff]
  norm_num

/-- C9 (amended): for every full-form duration string `PT<h>H<m>M<s>S`
(digit runs for hours and minutes, a `float()`-acceptable digits-and-dot
run for seconds), the parser computes `total_seconds` in binary64 floating
point — `seconds = float(<group>)` correctly rounded, the exact integer
`3600·hours + 60·minutes` converted to binary64 by the addition, and one
IEEE rounding per `+` and `*` — and returns
`int(total_seconds * 10_000_000)`: truncation toward zero of the binary64
product, not `round(totalSeconds × 10,000,000)`.  The empty string and any
string not starting with `PT` yield `none` instead of raising. -/
theorem c9_duration_parse :
    (∀ (hd md sd : List Char) (sec total prod : Nat × Int),
      hd ≠ [] → (∀ c ∈ hd, c.isDigit = true) →
      md ≠ [] → (∀ c ∈ md, c.isDigit = true) →
      (∀ c ∈ sd, (c.isDigit || c = '.') = true) →
      pyFloatRun64 sd = some sec →
      pyTotalSeconds64 (digitsToNat hd) (digitsToNat md) sec = some total →
      pyMulTicks64 total = some prod →
      parseDurationToTicks
          (String.mk ('P' :: 'T' :: (hd ++ 'H' :: (md ++ 'M' :: (sd ++ ['S'])))))
        = some (dyadicTrunc prod : Int)) ∧
    parseDurationToTicks "" = none ∧
    (∀ cs : List Char, cs.take 2 ≠ ['P', 'T'] →
      parseDurationToTicks (String.mk cs) = none) := by
  refine ⟨parseDuration_groups, by decide, ?_⟩
  intro cs h
  cases cs with
  | nil => decide
  | cons a t =>
    cases t with
    | nil =>
      have hne : String.mk [a] ≠ "" := by
        intro hcontra
        exact List.noConfusion (congrArg String.data hcontra)
      unfold parseDurationToTicks
      rw [if_neg hne]
    | cons b t2 =>
      have hne : String.mk (a :: b :: t2) ≠ "" := by
        intro hcontra
        exact List.noConfusion (congrArg String.data hcontra)
      have hpt : ¬(a = 'P' ∧ b = 'T') := by
        rintro ⟨rfl, rfl⟩
        exact h rfl
      unfold parseDurationToTicks
      rw [if_neg hne]
      dsimp only
      rw [if_neg hpt]

/-- The binary64 value of `float("3")` as a dyadic pair. -/
def c9secD : Nat × Int := (pyFloatRun64 ['3']).getD (0, 0)

/-- The binary64 total seconds of `PT1H2M3S`. -/
def c9totalD : Nat × Int := (pyTotalSeconds64 1 2 c9secD).getD (0, 0)

/-- The binary64 tick product for `PT1H2M3S`. -/
def c9prodD : Nat × Int := (pyMulTicks64 c9totalD).getD (0, 0)

set_option maxRecDepth 16384 in
set_option exponentiation.threshold 2048 in
/-- C9 witness: `PT1H2M3S` parses to 3723 s = 37,230,000,000 ticks (every
intermediate double is exact here). -/
theorem c9_duration_parse_witness :
    parseDurationToTicks "PT1H2M3S" = some 37230000000 := by
  have h := c9_duration_parse.1 ['1'] ['2'] ['3'] c9secD c9totalD c9prodD
    (by decide) (by decide) (by decide) (by decide) (by decide) rfl rfl rfl
  have hs : String.mk ('P' :: 'T' :: (['1'] ++ 'H' :: (['2'] ++ 'M' ::
      (['3'] ++ ['S'])))) = "PT1H2M3S" := by decide
  rw [hs] at h
  rw [h]
  decide

/-- Inserting a fresh key into the dict-like association list appends. -/
theorem dictSet_append (m : List (String × CachedJob)) (k : String) (v : CachedJob)
    (h : ∀ p ∈ m, p.1 ≠ k) : dictSet m k v = m ++ [(k, v)] := by
  unfold dictSet
  rw [if_neg ?hna]
  case hna =>
    intro hany
    rw [List.any_eq_true] at hany
    obtain ⟨p, hp, hpk⟩ := hany
    exact h p hp (by simpa using hpk)

/-- The cache-partition fold appends the terminal jobs (keyed by id) to the
dict and the non-terminal ids to the refresh list, provided the incoming
ids are fresh and duplicate-free. -/
theorem partitionFold_spec (l : List CachedJob) :
    ∀ (m : List (String × CachedJob)) (r : List String),
      (∀ j ∈ l, ∀ p ∈ m, p.1 ≠ j.id) →
      (l.map (fun j => j.id)).Nodup →
      l.foldl (fun st j =>
          if isTerminalStatus j.status then (dictSet st.1 j.id j, st.2)
          else (st.1, st.2 ++ [j.id])) (m, r)
        = (m ++ (l.filter (fun j => isTerminalStatus j.status)).map
              (fun j => (j.id, j)),
           r ++ (l.filter (fun j => !isTerminalStatus j.status)).map
              (fun j => j.id)) := by
  induction l with
  | nil =>
    intro m r hfresh hnd
    simp
  | cons j t ih =>
    intro m r hfresh hnd
    simp only [List.map_cons, List.nodup_cons] at hnd
    simp only [List.foldl_cons]
    by_cases hterm : isTerminalStatus j.status = true
    · rw [if_pos hterm]
      have hset : dictSet m j.id j = m ++ [(j.id, j)] :=
        dictSet_append m j.id j
          (fun p hp => hfresh j (List.mem_cons_self j t) p hp)
      rw [hset]
      rw [ih (m ++ [(j.id, j)]) r ?fresh2 hnd.2]
      · simp [List.filter_cons, hterm, List.append_assoc]
      case fresh2 =>
        intro j2 hj2 p hp
        rcases List.mem_append.mp hp with hpm | hpe
        · exact hfresh j2 (List.mem_cons_of_mem j hj2) p hpm
        · have hpv : p = (j.id, j) := by simpa using hpe
          subst hpv
          intro heq
          have heq2 : j.id = j2.id := heq
          refine hnd.1 ?_
          rw [heq2]
          exact List.mem_map_of_mem (fun j3 => j3.id) hj2
    · rw [if_neg hterm]
      rw [ih m (r ++ [j.id]) ?fresh3 hnd.2]
      · have hterm2 : (!isTerminalStatus j.status) = true := by
          simp [hterm]
        simp [List.filter_cons, hterm, hterm2, List.append_assoc]
      case fresh3 =>
        intro j2 hj2 p hp
        exact hfresh j2 (List.mem_cons_of_mem j hj2) p hp

/-- The platform-list pass appends the cache-resolved job for every
platform job and queues for the files fetch exactly the emitted jobs with
an empty file list. -/
theorem processFold_spec (cache : List (String × CachedJob)) (l : List CachedJob) :
    ∀ (acc1 : List CachedJob) (acc2 : List String),
      l.foldl (fun st p =>
          match lookupDict cache p.id with
          | some c => (st.1 ++ [c], if c.files = [] then st.2 ++ [c.id] else st.2)
          | none => (st.1 ++ [p], if p.files = [] then st.2 ++ [p.id] else st.2))
        (acc1, acc2)
        = (acc1 ++ l.map (fun p => (lookupDict cache p.id).getD p),
           acc2 ++ (l.map (fun p => (lookupDict cache p.id).getD p)).filterMap
             (fun j => if j.files = [] then some j.id else none)) := by
  induction l with
  | nil =>
    intro acc1 acc2
    simp
  | cons p t ih =>
    intro acc1 acc2
    simp only [List.foldl_cons]
    cases hl : lookupDict cache p.id with
    | none =>
      dsimp only
      rw [ih]
      by_cases hf : p.files = []
      · simp [hl, hf, List.append_assoc]
      · simp [hl, hf, List.append_assoc]
    | some c =>
      dsimp only
      rw [ih]
      by_cases hf : c.files = []
      · simp [hl, hf, List.append_assoc]
      · simp [hl, hf, List.append_assoc]

/-- C6: with `forceRefresh` false and a non-empty duplicate-free cached-job
list, the cache partition keeps exactly the terminal (`Succeeded`/`Failed`)
jobs in the id-keyed dict and queues every other id for a platform refresh;
with `forceRefresh` true the cache is bypassed entirely; and the platform
pass emits the cached record (status kept) for every cached job, queueing
for a files-only fetch exactly the emitted jobs whose file list is empty. -/
theorem c6_job_cache :
    (∀ cachedJobs : List CachedJob, cachedJobs ≠ [] →
      (cachedJobs.map (fun j => j.id)).Nodup →
      partitionJobCache cachedJobs false
        = ((cachedJobs.filter (fun j => isTerminalStatus j.status)).map
              (fun j => (j.id, j)),
           (cachedJobs.filter (fun j => !isTerminalStatus j.status)).map
              (fun j => j.id))) ∧
    (∀ cachedJobs : List CachedJob, partitionJobCache cachedJobs true = ([], [])) ∧
    (∀ (platformJobs : List CachedJob) (cache : List (String × CachedJob)),
      processJobList platformJobs cache
        = (platformJobs.map (fun p => (lookupDict cache p.id).getD p),
           (platformJobs.map (fun p => (lookupDict cache p.id).getD p)).filterMap
             (fun j => if j.files = [] then some j.id else none))) := by
  refine ⟨?_, ?_, ?_⟩
  · intro cachedJobs hne hnd
    unfold partitionJobCache
    rw [if_pos ⟨hne, rfl⟩]
    rw [partitionFold_spec cachedJobs [] [] (fun j hj p hp => absurd hp
      (List.not_mem_nil p)) hnd]
    simp
  · intro cachedJobs
    unfold partitionJobCache
    rw [if_neg (fun h => absurd h.2 (by decide))]
  · intro platformJobs cache
    unfold processJobList
    rw [processFold_spec cache platformJobs [] []]
    simp

/-- The spec's cache example: job `a` succeeded with a file, job `b` still
running. -/
def exCachedA : CachedJob := ⟨"a", "Succeeded", ["f.wav"]⟩

/-- The running cached job of the example. -/
def exCachedB : CachedJob := ⟨"b", "Running", []⟩

/-- C6 witness: on the spec's example cache with `forceRefresh` false, only
`b` is queued for refresh and `a`'s record is kept; with `forceRefresh`
true both outputs are empty; and a cached terminal job with no files is
queued for the files-only fetch from the platform pass. -/
theorem c6_job_cache_witness :
    partitionJobCache [exCachedA, exCachedB] false
      = ([("a", exCachedA)], ["b"]) ∧
    partitionJobCache [exCachedA, exCachedB] true = ([], []) ∧
    processJobList [⟨"a", "Succeeded", []⟩] [("a", ⟨"a", "Succeeded", []⟩)]
      = ([⟨"a", "Succeeded", []⟩], ["a"]) := by
  refine ⟨?_, c6_job_cache.2.1 [exCachedA, exCachedB], ?_⟩
  · rw [c6_job_cache.1 [exCachedA, exCachedB] (by decide) (by decide)]
    decide
  · rw [c6_job_cache.2.2 [⟨"a", "Succeeded", []⟩] [("a", ⟨"a", "Succeeded", []⟩)]]
    decide

/-- The merge loop always bumps the file index by one, skipped or not. -/
theorem mergeStep_snd (now : DT) (acc : List Seg) (i : Nat) (f : ResultFile) :
    (mergeStep now (acc, i) f).2 = i + 1 := by
  unfold mergeStep
  by_cases h1 : isSasExpired now f.url = true
  · rw [if_pos h1]
  · rw [if_neg h1]
    by_cases h2 : (!f.downloadOk) = true
    · rw [if_pos h2]
    · rw [if_neg h2]

/-- The merged prefix produced by one step does not depend on the file
index, as long as a zero index can only occur with an empty accumulator. -/
theorem mergeStep_fst_eq (now : DT) (f : ResultFile) (acc : List Seg) (i j : Nat)
    (hi : i = 0 → acc = []) (hj : j = 0 → acc = []) :
    (mergeStep now (acc, i) f).1 = (mergeStep now (acc, j) f).1 := by
  unfold mergeStep
  by_cases h1 : isSasExpired now f.url = true
  · rw [if_pos h1, if_pos h1]
  · rw [if_neg h1, if_neg h1]
    by_cases h2 : (!f.downloadOk) = true
    · rw [if_pos h2, if_pos h2]
    · rw [if_neg h2, if_neg h2]
      dsimp only
      cases hacc : acc.getLast? with
      | none =>
        have hnil : acc = [] := by
          cases acc with
          | nil => rfl
          | cons a t => simp [List.getLast?_concat] at hacc
        subst hnil
        by_cases hi0 : 0 < i <;> by_cases hj0 : 0 < j <;>
          simp [hi0, hj0]
      | some last =>
        have hne : acc ≠ [] := by
          intro h
          subst h
          simp at hacc
        have hi0 : 0 < i := Nat.pos_of_ne_zero (fun h => hne (hi h))
        have hj0 : 0 < j := Nat.pos_of_ne_zero (fun h => hne (hj h))
        simp [hi0, hj0]

/-- Dropping the SAS-expired files from the input list leaves the merged
segment list unchanged: an expired file is skipped, never merged, and
never aborts the loop. -/
theorem mergeFold_skip_expired (now : DT) :
    ∀ (l : List ResultFile) (acc : List Seg) (i j : Nat),
      (i = 0 → acc = []) → (j = 0 → acc = []) →
      (l.foldl (mergeStep now) (acc, i)).1
        = ((l.filter (fun f => !(isSasExpired now f.url))).foldl
            (mergeStep now) (acc, j)).1 := by
  intro l
  induction l with
  | nil =>
    intro acc i j hi hj
    simp
  | cons f t ih =>
    intro acc i j hi hj
    by_cases hexp : isSasExpired now f.url = true
    · have hstep : mergeStep now (acc, i) f = (acc, i + 1) := by
        unfold mergeStep
        rw [if_pos hexp]
      have hfilter : (f :: t).filter (fun f => !(isSasExpired now f.url))
          = t.filter (fun f => !(isSasExpired now f.url)) := by
        simp [List.filter_cons, hexp]
      simp only [List.foldl_cons, hstep, hfilter]
      exact ih acc (i + 1) j (fun h => absurd h (Nat.succ_ne_zero i)) hj
    · have hfilter : (f :: t).filter (fun f => !(isSasExpired now f.url))
          = f :: t.filter (fun f => !(isSasExpired now f.url)) := by
        simp [List.filter_cons, hexp]
      simp only [List.foldl_cons, hfilter]
      have hfst := mergeStep_fst_eq now f acc i j hi hj
      have hpi : mergeStep now (acc, i) f
          = ((mergeStep now (acc, i) f).1, i + 1) :=
        Prod.ext rfl (mergeStep_snd now acc i f)
      have hpj : mergeStep now (acc, j) f
          = ((mergeStep now (acc, i) f).1, j + 1) := by
        refine Prod.ext ?_ (mergeStep_snd now acc j f)
        exact hfst.symm
      rw [hpi, hpj]
      exact ih ((mergeStep now (acc, i) f).1) (i + 1) (j + 1)
        (fun h => absurd h (Nat.succ_ne_zero i))
        (fun h => absurd h (Nat.succ_ne_zero j))

/-- C7: the multi-file merge is total (no exception path): expired files
are excluded without affecting the rest of the merge; at least one merged
segment makes the result successful; and zero merged segments produce an
explicit failure result with the descriptive message. -/
theorem c7_partial_merge (now : DT) (files : List ResultFile) :
    mergeFiles now files
      = mergeFiles now (files.filter (fun f => !(isSasExpired now f.url))) ∧
    (mergeFiles now files ≠ [] →
      (getTranscriptionResultsCore now files).success = true ∧
      (getTranscriptionResultsCore now files).segments = mergeFiles now files) ∧
    (mergeFiles now files = [] →
      getTranscriptionResultsCore now files
        = ⟨false, "No transcription data found in result files", []⟩) := by
  refine ⟨?_, ?_, ?_⟩
  · unfold mergeFiles
    exact mergeFold_skip_expired now files [] 0 0 (fun _ => rfl) (fun _ => rfl)
  · intro hne
    unfold getTranscriptionResultsCore
    rw [if_neg hne]
    exact ⟨rfl, rfl⟩
  · intro hnil
    unfold getTranscriptionResultsCore
    rw [if_pos hnil]

/-- A result file whose SAS token expired in 2020. -/
def exExpiredFile : ResultFile :=
  ⟨"https://acct.blob.core.windows.net/r0.json?se=2020-01-01T00:00:00Z&sig=a",
   true,
   [{ speaker := "Speaker 1", text := "stale", offsetInTicks := 0,
      durationInTicks := 5, lineNumber := 1 }]⟩

/-- A live result file with one segment. -/
def exLiveFile : ResultFile :=
  ⟨"https://acct.blob.core.windows.net/r1.json?se=2030-01-01T00:00:00Z&sig=b",
   true,
   [{ speaker := "Speaker 1", text := "fresh", offsetInTicks := 0,
      durationInTicks := 7, lineNumber := 1 }]⟩

/-- The evaluation instant for the C7 witness. -/
def exNow : DT := ⟨2025, 6, 1, 0, 0, 0⟩

/-- C7 witness: with one expired and one live file, the merge equals the
merge of the live file alone and reports success; with only the expired
file, the merge reports the explicit failure result. -/
theorem c7_partial_merge_witness :
    mergeFiles exNow [exExpiredFile, exLiveFile]
      = mergeFiles exNow ([exExpiredFile, exLiveFile].filter
          (fun f => !(isSasExpired exNow f.url))) ∧
    (getTranscriptionResultsCore exNow [exExpiredFile, exLiveFile]).success
      = true ∧
    getTranscriptionResultsCore exNow [exExpiredFile]
      = ⟨false, "No transcription data found in result files", []⟩ := by
  refine ⟨(c7_partial_merge exNow [exExpiredFile, exLiveFile]).1, ?_, ?_⟩
  · exact ((c7_partial_merge exNow [exExpiredFile, exLiveFile]).2.1
      (by decide)).1
  · exact (c7_partial_merge exNow [exExpiredFile]).2.2 (by decide)

/-- Folding the merge loop adds the list length to the file index. -/
theorem mergeFold_snd (now : DT) :
    ∀ (l : List ResultFile) (acc : List Seg) (i : Nat),
      (l.foldl (mergeStep now) (acc, i)).2 = i + l.length := by
  intro l
  induction l with
  | nil =>
    intro acc i
    simp
  | cons f t ih =>
    intro acc i
    simp only [List.foldl_cons]
    have hp : mergeStep now (acc, i) f = ((mergeStep now (acc, i) f).1, i + 1) :=
      Prod.ext rfl (mergeStep_snd now acc i f)
    rw [hp, ih]
    simp only [List.length_cons]
    omega

/-- One merge step only appends to the accumulated segments. -/
theorem mergeStep_fst_append (now : DT) (acc : List Seg) (i : Nat)
    (f : ResultFile) : ∃ u, (mergeStep now (acc, i) f).1 = acc ++ u := by
  unfold mergeStep
  by_cases h1 : isSasExpired now f.url = true
  · rw [if_pos h1]
    exact ⟨[], by simp⟩
  · rw [if_neg h1]
    by_cases h2 : (!f.downloadOk) = true
    · rw [if_pos h2]
      exact ⟨[], by simp⟩
    · rw [if_neg h2]
      dsimp only
      by_cases h3 : 0 < i
      · rw [if_pos h3]
        cases hacc : acc.getLast? with
        | none => exact ⟨f.segments, rfl⟩
        | some last => exact ⟨f.segments.map (shiftSeg (segEnd last)), rfl⟩
      · rw [if_neg h3]
        exact ⟨f.segments, rfl⟩

/-- The whole merge loop only appends to the accumulated segments. -/
theorem mergeFold_fst_append (now : DT) :
    ∀ (l : List ResultFile) (acc : List Seg) (i : Nat),
      ∃ t, (l.foldl (mergeStep now) (acc, i)).1 = acc ++ t := by
  intro l
  induction l with
  | nil =>
    intro acc i
    exact ⟨[], by simp⟩
  | cons f t ih =>
    intro acc i
    simp only [List.foldl_cons]
    obtain ⟨u, hu⟩ := mergeStep_fst_append now acc i f
    have hp : mergeStep now (acc, i) f = (acc ++ u, i + 1) :=
      Prod.ext hu (mergeStep_snd now acc i f)
    rw [hp]
    obtain ⟨t2, ht2⟩ := ih (acc ++ u) (i + 1)
    exact ⟨u ++ t2, by rw [ht2, List.append_assoc]⟩

/-- Every segment a merge step appends keeps the duration of some source
segment of the stepped file. -/
theorem mergeStep_duration_mem (now : DT) (acc : List Seg) (i : Nat)
    (f : ResultFile) :
    ∀ s ∈ (mergeStep now (acc, i) f).1,
      s ∈ acc ∨ ∃ s0 ∈ f.segments, s.durationInTicks = s0.durationInTicks := by
  intro s hs
  unfold mergeStep at hs
  by_cases h1 : isSasExpired now f.url = true
  · rw [if_pos h1] at hs
    exact Or.inl hs
  · rw [if_neg h1] at hs
    by_cases h2 : (!f.downloadOk) = true
    · rw [if_pos h2] at hs
      exact Or.inl hs
    · rw [if_neg h2] at hs
      dsimp only at hs
      by_cases h3 : 0 < i
      · rw [if_pos h3] at hs
        cases hacc : acc.getLast? with
        | none =>
          rw [hacc] at hs
          rcases List.mem_append.mp hs with h | h
          · exact Or.inl h
          · exact Or.inr ⟨s, h, rfl⟩
        | some last =>
          rw [hacc] at hs
          rcases List.mem_append.mp hs with h | h
          · exact Or.inl h
          · obtain ⟨s0, hs0, hmap⟩ := List.mem_map.mp h
            exact Or.inr ⟨s0, hs0, by rw [← hmap]; rfl⟩
      · rw [if_neg h3] at hs
        rcases List.mem_append.mp hs with h | h
        · exact Or.inl h
        · exact Or.inr ⟨s, h, rfl⟩

/-- Every merged segment keeps the duration of some source segment. -/
theorem mergeFold_duration_mem (now : DT) :
    ∀ (l : List ResultFile) (acc : List Seg) (i : Nat),
      ∀ s ∈ (l.foldl (mergeStep now) (acc, i)).1,
        s ∈ acc ∨ ∃ f ∈ l, ∃ s0 ∈ f.segments,
          s.durationInTicks = s0.durationInTicks := by
  intro l
  induction l with
  | nil =>
    intro acc i s hs
    simp at hs
    exact Or.inl hs
  | cons f t ih =>
    intro acc i s hs
    simp only [List.foldl_cons] at hs
    have hp : mergeStep now (acc, i) f = ((mergeStep now (acc, i) f).1, i + 1) :=
      Prod.ext rfl (mergeStep_snd now acc i f)
    rw [hp] at hs
    rcases ih ((mergeStep now (acc, i) f).1) (i + 1) s hs with hmem | ⟨g, hg, h0⟩
    · rcases mergeStep_duration_mem now acc i f s hmem with h | ⟨s0, hs0, hd⟩
      · exact Or.inl h
      · exact Or.inr ⟨f, List.mem_cons_self f t, s0, hs0, hd⟩
    · exact Or.inr ⟨g, List.mem_cons_of_mem f hg, h0⟩

/-- A processed (non-expired, downloaded) file at a positive index with a
non-empty accumulator appends its segments shifted by the end of the last
merged segment. -/
theorem mergeStep_processed (now : DT) (acc : List Seg) (i : Nat)
    (f : ResultFile) (last : Seg) (hexp : isSasExpired now f.url = false)
    (hok : f.downloadOk = true) (hi : 0 < i) (hacc : acc.getLast? = some last) :
    mergeStep now (acc, i) f
      = (acc ++ f.segments.map (shiftSeg (segEnd last)), i + 1) := by
  unfold mergeStep
  rw [if_neg (by simp [hexp]), if_neg (by simp [hok])]
  dsimp only
  rw [if_pos hi, hacc]

/-- The merged list of a non-empty list of processed files with non-empty
payloads is non-empty. -/
theorem mergeFiles_ne_nil (now : DT) (pre : List ResultFile) (hpre : pre ≠ [])
    (hproc : ∀ f ∈ pre, isSasExpired now f.url = false ∧ f.downloadOk = true)
    (hseg : ∀ f ∈ pre, f.segments ≠ []) :
    mergeFiles now pre ≠ [] := by
  cases pre with
  | nil => exact absurd rfl hpre
  | cons p t =>
    have hp := hproc p (List.mem_cons_self p t)
    have hstep : mergeStep now ([], 0) p = (p.segments, 1) := by
      unfold mergeStep
      rw [if_neg (by simp [hp.1]), if_neg (by simp [hp.2])]
      dsimp only
      rw [if_neg (by omega)]
      rfl
    unfold mergeFiles
    simp only [List.foldl_cons, hstep]
    obtain ⟨t2, ht2⟩ := mergeFold_fst_append now t p.segments 1
    rw [ht2]
    have hps := hseg p (List.mem_cons_self p t)
    intro hcontra
    exact hps (List.append_eq_nil.mp hcontra).1

/-- First counterexample segment: offset 0, duration 10. -/
def c1segA : Seg :=
  { speaker := "S", text := "a", offsetInTicks := 0, durationInTicks := 10,
    lineNumber := 1 }

/-- Second counterexample segment: original offset 5, duration 10. -/
def c1segB : Seg :=
  { speaker := "S", text := "b", offsetInTicks := 5, durationInTicks := 10,
    lineNumber := 1 }

/-- Counterexample result file 0. -/
def c1fileA : ResultFile := ⟨"u0", true, [c1segA]⟩

/-- Counterexample result file 1. -/
def c1fileB : ResultFile := ⟨"u1", true, [c1segB]⟩

/-- The evaluation instant for the C1 theorems (the URLs carry no token, so
it is irrelevant). -/
def c1now : DT := ⟨2025, 1, 1, 0, 0, 0⟩

/-- C1 counterexample: with file 0 = one segment at offset 0, duration 10,
and file 1 = one segment at original offset 5, duration 10, the merged
offsets are `[0, 15]`: file 1's first merged offset is 15 — the cumulative
end of file 0 (10) plus file 1's own original offset (5) — refuting the
claimed equality with the cumulative end alone. -/
theorem c1_counterexample :
    (mergeFiles c1now [c1fileA, c1fileB]).map (fun s => s.offsetInTicks)
      = [0, 15] ∧
    segEnd c1segA = 10 ∧
    ((mergeFiles c1now [c1fileA, c1fileB]).get? 1).map
      (fun s => s.offsetInTicks) ≠ some (segEnd c1segA) := by
  refine ⟨by decide, by decide, by decide⟩

/-- C1 (amended): in a merge over processed files with non-empty payloads,
every segment of a later file is shifted by the end (offset + duration) of
the last already-merged segment; the file's first merged offset equals that
cumulative end **plus the file's own first original offset** (equal to the
cumulative end alone only when that original offset is zero); and with
non-negative durations and offsets the merged offsets are non-decreasing
across the file boundary. -/
theorem c1_merge_timeline (now : DT) (pre : List ResultFile) (fi : ResultFile)
    (post : List ResultFile)
    (hpre : pre ≠ [])
    (hproc : ∀ f ∈ pre, isSasExpired now f.url = false ∧ f.downloadOk = true)
    (hseg : ∀ f ∈ pre, f.segments ≠ [])
    (hfi : isSasExpired now fi.url = false ∧ fi.downloadOk = true)
    (hdur : ∀ f ∈ pre, ∀ s ∈ f.segments, 0 ≤ s.durationInTicks)
    (hoff : ∀ s ∈ fi.segments, 0 ≤ s.offsetInTicks) :
    ∃ last t,
      (mergeFiles now pre).getLast? = some last ∧
      mergeFiles now (pre ++ fi :: post)
        = mergeFiles now pre ++ fi.segments.map (shiftSeg (segEnd last)) ++ t ∧
      (∀ s0, fi.segments.head? = some s0 →
        (mergeFiles now (pre ++ fi :: post)).get? (mergeFiles now pre).length
          = some (shiftSeg (segEnd last) s0) ∧
        (shiftSeg (segEnd last) s0).offsetInTicks
          = segEnd last + s0.offsetInTicks ∧
        last.offsetInTicks ≤ (shiftSeg (segEnd last) s0).offsetInTicks) := by
  have hMne : mergeFiles now pre ≠ [] := mergeFiles_ne_nil now pre hpre hproc hseg
  have hlast : (mergeFiles now pre).getLast?
      = some ((mergeFiles now pre).getLast hMne) :=
    List.getLast?_eq_getLast _ hMne
  have hfold_pre : pre.foldl (mergeStep now) ([], 0)
      = (mergeFiles now pre, pre.length) := by
    refine Prod.ext rfl ?_
    rw [mergeFold_snd]
    simp
  have hipos : 0 < pre.length := List.length_pos.mpr hpre
  have hstep := mergeStep_processed now (mergeFiles now pre) pre.length fi
    ((mergeFiles now pre).getLast hMne) hfi.1 hfi.2 hipos hlast
  obtain ⟨t, ht⟩ := mergeFold_fst_append now post
    (mergeFiles now pre ++ fi.segments.map
      (shiftSeg (segEnd ((mergeFiles now pre).getLast hMne)))) (pre.length + 1)
  have hun : mergeFiles now (pre ++ fi :: post)
      = ((fi :: post).foldl (mergeStep now) (pre.foldl (mergeStep now) ([], 0))).1 := by
    unfold mergeFiles
    rw [List.foldl_append]
  have hdecomp : mergeFiles now (pre ++ fi :: post)
      = mergeFiles now pre ++ fi.segments.map
          (shiftSeg (segEnd ((mergeFiles now pre).getLast hMne))) ++ t := by
    rw [hun, hfold_pre]
    simp only [List.foldl_cons, hstep]
    exact ht
  refine ⟨(mergeFiles now pre).getLast hMne, t, hlast, hdecomp, ?_⟩
  intro s0 hs0
  have hs0mem : s0 ∈ fi.segments := by
    cases hfs : fi.segments with
    | nil =>
      rw [hfs] at hs0
      cases hs0
    | cons a rest =>
      rw [hfs] at hs0
      have ha : a = s0 := by injection hs0
      subst ha
      exact List.mem_cons_self a rest
  refine ⟨?_, ?_, ?_⟩
  · rw [hdecomp, List.append_assoc]
    rw [List.get?_eq_getElem?,
      List.getElem?_append_right (le_refl (mergeFiles now pre).length)]
    simp only [Nat.sub_self]
    cases hfs : fi.segments with
    | nil =>
      rw [hfs] at hs0
      cases hs0
    | cons a rest =>
      rw [hfs] at hs0
      have ha : a = s0 := by injection hs0
      subst ha
      simp
  · unfold shiftSeg
    dsimp only
    omega
  · have hlastmem : (mergeFiles now pre).getLast hMne ∈ mergeFiles now pre :=
      List.getLast_mem hMne
    have hdur0 : 0 ≤ ((mergeFiles now pre).getLast hMne).durationInTicks := by
      rcases mergeFold_duration_mem now pre [] 0 _ hlastmem with hmem | ⟨f, hf, s1, hs1, hd⟩
      · cases hmem
      · rw [hd]
        exact hdur f hf s1 hs1
    have hoff0 : 0 ≤ s0.offsetInTicks := hoff s0 hs0mem
    unfold shiftSeg segEnd
    dsimp only
    omega

/-- C1 witness: applying the merge-timeline theorem at the concrete
two-file input: the last merged segment of file 0 is `c1segA`, and file 1's
first merged segment sits at the end of file 0 shifted by its own original
offset. -/
theorem c1_merge_timeline_witness :
    (mergeFiles c1now [c1fileA]).getLast? = some c1segA ∧
    (mergeFiles c1now ([c1fileA] ++ c1fileB :: [])).get?
        (mergeFiles c1now [c1fileA]).length
      = some (shiftSeg (segEnd c1segA) c1segB) ∧
    (shiftSeg (segEnd c1segA) c1segB).offsetInTicks
      = segEnd c1segA + c1segB.offsetInTicks := by
  obtain ⟨last, t, hlast, hdecomp, hhead⟩ :=
    c1_merge_timeline c1now [c1fileA] c1fileB [] (by decide) (by decide)
      (by decide) (by decide) (by decide) (by decide)
  have hlastv : last = c1segA := by
    have hconc : (mergeFiles c1now [c1fileA]).getLast? = some c1segA := by decide
    rw [hconc] at hlast
    exact (Option.some.inj hlast).symm
  subst hlastv
  obtain ⟨hget, hoffeq, hmono⟩ := hhead c1segB rfl
  exact ⟨hlast ▸ (by decide), hget, hoffeq⟩

end STT
